import Mathlib

/-!
Verification development for the `cryo` notebook (`ipynb/plots.ipynb`).

The notebook loads lock-in amplifier and power-supply log files, each a
sequence of comma-separated numeric lines, and plots them.  The logic
embedded here is:

* the per-line parsing expression `map(float, line.strip().lower().split(','))`
  used by every loading cell and by `quickplot`;
* the per-file loading loops that append parsed rows and wrap them with
  `np.asarray` (variables `run`, `run_ps`, `lockindata`, `psdata`);
* the threshold filter `run[run[:,0] - 1.426114e9 > 3400]`;
* the directory scan that partitions `os.listdir(datadir)` by the
  filename tests `f.startswith('lock-in')` and `f.startswith('power-supply')`.

Numbers are idealised as rationals: every literal occurring in the data
path (`1.426114e9`, `3400`) is exactly representable as an IEEE double,
so the idealisation does not change any comparison the code performs.
Strings are lists of characters; the log data is ASCII text.
-/

namespace Cryo

/-- ASCII lowercasing of one character, as Python's `str.lower` acts on the
ASCII log data: uppercase letters map to their lowercase forms, every other
character is unchanged. -/
def pyLowerCh (c : Char) : Char :=
  match c with
  | 'A' => 'a' | 'B' => 'b' | 'C' => 'c' | 'D' => 'd' | 'E' => 'e'
  | 'F' => 'f' | 'G' => 'g' | 'H' => 'h' | 'I' => 'i' | 'J' => 'j'
  | 'K' => 'k' | 'L' => 'l' | 'M' => 'm' | 'N' => 'n' | 'O' => 'o'
  | 'P' => 'p' | 'Q' => 'q' | 'R' => 'r' | 'S' => 's' | 'T' => 't'
  | 'U' => 'u' | 'V' => 'v' | 'W' => 'w' | 'X' => 'x' | 'Y' => 'y'
  | 'Z' => 'z'
  | c => c

/-- Python's `str.strip()`: remove whitespace from both ends of a line. -/
def pyStrip (cs : List Char) : List Char :=
  ((cs.dropWhile Char.isWhitespace).reverse.dropWhile Char.isWhitespace).reverse

/-- Python's `str.split(',')`: split on every comma; the empty string yields
one empty field, `n` commas yield `n + 1` fields. -/
def splitOnComma : List Char → List (List Char)
  | [] => [[]]
  | c :: cs =>
    match splitOnComma cs with
    | [] => [[c]]
    | f :: rest => if c == ',' then [] :: f :: rest else (c :: f) :: rest

/-- Decimal digit test on characters. -/
def isDigitCh (c : Char) : Bool :=
  48 ≤ c.toNat && c.toNat ≤ 57

/-- Value of a string of decimal digits, most significant first. -/
def digitsVal (ds : List Char) : ℕ :=
  ds.foldl (fun a c => 10 * a + (c.toNat - 48)) 0

/-- Digit string of an exponent: at least one digit, nothing else. -/
def parseExpDigits (ds : List Char) : Option ℕ :=
  if !ds.isEmpty && ds.all isDigitCh then some (digitsVal ds) else none

/-- Exponent suffix of a float literal as accepted by Python's `float`:
either nothing (exponent 0) or `e`/`E`, an optional sign, and at least one
digit, consuming the whole remaining input. -/
def parseExpPart : List Char → Option ℤ
  | [] => some 0
  | c :: rest =>
    if c == 'e' || c == 'E' then
      match rest with
      | [] => none
      | d :: ds =>
        if d = '+' then (parseExpDigits ds).map (fun n => (n : ℤ))
        else if d = '-' then (parseExpDigits ds).map (fun n => -(n : ℤ))
        else (parseExpDigits (d :: ds)).map (fun n => (n : ℤ))
    else none

/-- Mantissa with a decimal point: integer digits `ip`, then the part `r2`
after the point.  At least one digit is required on one side of the point,
and the fraction is followed by the exponent suffix. -/
def parseAfterPoint (ip r2 : List Char) : Option ℚ :=
  let fp := r2.takeWhile isDigitCh
  let r3 := r2.dropWhile isDigitCh
  if ip.isEmpty && fp.isEmpty then none
  else (parseExpPart r3).map (fun e =>
    ((digitsVal ip : ℚ) + (digitsVal fp : ℚ) / (10 : ℚ) ^ fp.length) * (10 : ℚ) ^ e)

/-- Mantissa without a decimal point: the digits `ip` must be nonempty and
`r1`, the rest of the input, must be an exponent suffix. -/
def parseNoPoint (ip r1 : List Char) : Option ℚ :=
  if ip.isEmpty then none
  else (parseExpPart r1).map (fun e => (digitsVal ip : ℚ) * (10 : ℚ) ^ e)

/-- Unsigned mantissa followed by an optional exponent, as accepted by
Python's `float`: `digits`, `digits.digits`, `digits.` or `.digits`, with at
least one digit overall, then the exponent suffix. -/
def parseMantExp (cs : List Char) : Option ℚ :=
  match cs.dropWhile isDigitCh with
  | c :: r2 =>
    if c = '.' then parseAfterPoint (cs.takeWhile isDigitCh) r2
    else parseNoPoint (cs.takeWhile isDigitCh) (c :: r2)
  | [] => parseNoPoint (cs.takeWhile isDigitCh) []

/-- Optional sign in front of the mantissa. -/
def parseSigned (cs : List Char) : Option ℚ :=
  match cs with
  | [] => parseMantExp []
  | c :: rest =>
    if c = '+' then parseMantExp rest
    else if c = '-' then (parseMantExp rest).map Neg.neg
    else parseMantExp (c :: rest)

/-- Python's `float(field)` on the finite numeric forms occurring in the
logs: surrounding whitespace is ignored, then an optional sign and a
mantissa/exponent literal.  A field that is not such a literal raises
`ValueError`, modelled as `none`.  (The non-finite spellings `inf`/`nan`
have no rational value and do not occur in timestamped instrument logs.) -/
def parseFloatF (cs0 : List Char) : Option ℚ :=
  parseSigned (pyStrip cs0)

/-- The fields of one line after `line.strip().lower().split(',')`. -/
def lineFields (line : List Char) : List (List Char) :=
  splitOnComma ((pyStrip line).map pyLowerCh)

/-- One row: `map(float, line.strip().lower().split(','))` in Python 2
applies `float` eagerly to every field, so one bad field fails the line. -/
def parseFields : List (List Char) → Option (List ℚ)
  | [] => some []
  | f :: fs =>
    match parseFloatF f, parseFields fs with
    | some v, some vs => some (v :: vs)
    | _, _ => none

/-- Parse one line of a log file into a row of rationals. -/
def parseLine (line : List Char) : Option (List ℚ) :=
  parseFields (lineFields line)

/-- Variant of `parseLine` with the `.lower()` step omitted, used to compare
the notebook's pipeline against one without lowercasing. -/
def parseLineNoLower (line : List Char) : Option (List ℚ) :=
  parseFields (splitOnComma (pyStrip line))

/-- The loading loop body: `run = []` then `run.append(...)` per line; an
exception from any line aborts the loop, leaving no array bound. -/
def loadLoop : List (List Char) → List (List ℚ) → Option (List (List ℚ))
  | [], acc => some acc
  | l :: ls, acc =>
    match parseLine l with
    | some r => loadLoop ls (acc ++ [r])
    | none => none

/-- The lock-in loader of the plotting cell (variable `run`): read the file
line by line, parse each line, collect the rows. -/
def loadLockin (lines : List (List Char)) : Option (List (List ℚ)) :=
  loadLoop lines []

/-- The power-supply loader of the plotting cell (variable `run_ps`),
transcribed from its own copy of the loop. -/
def loadPowerSupply (lines : List (List Char)) : Option (List (List ℚ)) :=
  loadLoop lines []

/-- Structural restatement of the loader used for reasoning: parse every
line in order, failing the whole load on the first bad line. -/
def parseAllLines : List (List Char) → Option (List (List ℚ))
  | [] => some []
  | l :: ls =>
    match parseLine l, parseAllLines ls with
    | some r, some rs => some (r :: rs)
    | _, _ => none

/-- One outer iteration of the multi-file loading loop: extend the
accumulated rows with the rows of the next file, unless already failed. -/
def loadStep (acc : Option (List (List ℚ))) (lines : List (List Char)) :
    Option (List (List ℚ)) :=
  match acc with
  | some a => loadLoop lines a
  | none => none

/-- The multi-file loading loop of the "Plot all data" cells (`lockindata`,
`psdata`): one accumulator list, extended file by file and line by line. -/
def loadFilesCat (files : List (List (List Char))) : Option (List (List ℚ)) :=
  files.foldl loadStep (some [])

/-- The reference epoch `1.426114e9` subtracted before thresholding; the
literal is an integer exactly representable as an IEEE double. -/
def refEpoch : ℚ := 1426114000

/-- The boolean-mask filter `run[run[:,0] - 1.426114e9 > 3400]` with the
threshold as a parameter: keep the rows whose first column exceeds
`refEpoch + t`, in their original order. -/
def thresholdFilter (t : ℚ) (rows : List (List ℚ)) : List (List ℚ) :=
  rows.filter (fun r => decide (r.headD 0 - refEpoch > t))

/-- Boolean test that `p` begins the character list `s`, as in Python's
`s.startswith(p)`. -/
def listPrefixB : List Char → List Char → Bool
  | [], _ => true
  | _ :: _, [] => false
  | a :: as, b :: bs => a == b && listPrefixB as bs

/-- Directory-scan loop: for each listed name, append it to the lock-in
list if it starts with "lock-in" and to the power-supply list if it starts
with "power-supply" (two independent tests, as in the cell). -/
def scanDirGo (files : List String) (acc : List String × List String) :
    List String × List String :=
  match files with
  | [] => acc
  | f :: fs =>
    let acc1 := if listPrefixB "lock-in".data f.data then (acc.1 ++ [f], acc.2) else acc
    let acc2 := if listPrefixB "power-supply".data f.data then (acc1.1, acc1.2 ++ [f]) else acc1
    scanDirGo fs acc2

/-- The directory scan of the "Plot all data" section: partition the
listing into `lockinfiles` and `psfiles`. -/
def scanDir (files : List String) : List String × List String :=
  scanDirGo files ([], [])

/-- Notebook session state for the filtering cell: numpy arrays live on a
heap addressed by allocation order, and the variable of the cell names one
of them. -/
structure NotebookState where
  heap : List (List (List ℚ))
  runAddr : ℕ

/-- The cell `run = run[run[:,0] - 1.426114e9 > t]`: boolean-mask indexing
allocates a fresh array holding the kept rows, and the variable is rebound
to it; no existing array is written. -/
def filterStep (t : ℚ) (st : NotebookState) : NotebookState :=
  { heap := st.heap ++ [thresholdFilter t (st.heap.getD st.runAddr [])]
    runAddr := st.heap.length }

/-! ### Character-level facts about ASCII lowercasing -/

theorem pyLowerCh_isDigit (c : Char) : isDigitCh (pyLowerCh c) = isDigitCh c := by
  unfold pyLowerCh
  split <;> first | decide | rfl

theorem pyLowerCh_isWhitespace (c : Char) :
    (pyLowerCh c).isWhitespace = c.isWhitespace := by
  unfold pyLowerCh
  split <;> first | decide | rfl

theorem pyLowerCh_of_digit (c : Char) (h : isDigitCh c = true) : pyLowerCh c = c := by
  unfold pyLowerCh
  split <;> first | revert h; decide | rfl

theorem pyLowerCh_eq_comma (c : Char) : (pyLowerCh c == ',') = (c == ',') := by
  unfold pyLowerCh
  split <;> first | decide | rfl

theorem pyLowerCh_eq_point (c : Char) : (pyLowerCh c = '.') ↔ (c = '.') := by
  unfold pyLowerCh
  split <;> first | decide | exact Iff.rfl

theorem pyLowerCh_eq_plus (c : Char) : (pyLowerCh c = '+') ↔ (c = '+') := by
  unfold pyLowerCh
  split <;> first | decide | exact Iff.rfl

theorem pyLowerCh_eq_minus (c : Char) : (pyLowerCh c = '-') ↔ (c = '-') := by
  unfold pyLowerCh
  split <;> first | decide | exact Iff.rfl

theorem pyLowerCh_eq_expMark (c : Char) :
    (pyLowerCh c == 'e' || pyLowerCh c == 'E') = (c == 'e' || c == 'E') := by
  unfold pyLowerCh
  split <;> first | decide | rfl

theorem isDigitCh_comp_pyLowerCh : (fun c => isDigitCh (pyLowerCh c)) = isDigitCh :=
  funext pyLowerCh_isDigit

theorem isWhitespace_comp_pyLowerCh :
    (fun c => (pyLowerCh c).isWhitespace) = Char.isWhitespace :=
  funext pyLowerCh_isWhitespace

/-! ### Lowercasing commutes with every stage of the loader pipeline -/

theorem dropWhile_ws_map_pyLowerCh (cs : List Char) :
    (cs.map pyLowerCh).dropWhile Char.isWhitespace =
      (cs.dropWhile Char.isWhitespace).map pyLowerCh := by
  rw [List.dropWhile_map]
  simp only [Function.comp_def, isWhitespace_comp_pyLowerCh]

theorem pyStrip_map_pyLowerCh (cs : List Char) :
    pyStrip (cs.map pyLowerCh) = (pyStrip cs).map pyLowerCh := by
  unfold pyStrip
  rw [dropWhile_ws_map_pyLowerCh, ← List.map_reverse, dropWhile_ws_map_pyLowerCh,
    ← List.map_reverse]

theorem takeWhile_isDigit_map_pyLowerCh (cs : List Char) :
    (cs.map pyLowerCh).takeWhile isDigitCh = cs.takeWhile isDigitCh := by
  rw [List.takeWhile_map]
  simp only [Function.comp_def, isDigitCh_comp_pyLowerCh]
  refine (List.map_congr_left ?_).trans (List.map_id _)
  intro a ha
  exact pyLowerCh_of_digit a (List.mem_takeWhile_imp ha)

theorem dropWhile_isDigit_map_pyLowerCh (cs : List Char) :
    (cs.map pyLowerCh).dropWhile isDigitCh = (cs.dropWhile isDigitCh).map pyLowerCh := by
  rw [List.dropWhile_map]
  simp only [Function.comp_def, isDigitCh_comp_pyLowerCh]

theorem map_pyLowerCh_of_all_digits (ds : List Char) (h : ds.all isDigitCh = true) :
    ds.map pyLowerCh = ds := by
  refine (List.map_congr_left ?_).trans (List.map_id _)
  intro a ha
  exact pyLowerCh_of_digit a (by simpa using List.all_eq_true.mp h a ha)

theorem isEmpty_map_eq (f : Char → Char) (l : List Char) :
    (l.map f).isEmpty = l.isEmpty := by
  cases l <;> rfl

theorem parseExpDigits_map_pyLowerCh (ds : List Char) :
    parseExpDigits (ds.map pyLowerCh) = parseExpDigits ds := by
  unfold parseExpDigits
  rw [List.all_map, isEmpty_map_eq]
  simp only [Function.comp_def, isDigitCh_comp_pyLowerCh]
  by_cases h : (!ds.isEmpty && ds.all isDigitCh) = true
  · rw [if_pos h, if_pos h, map_pyLowerCh_of_all_digits ds (Bool.and_elim_right h)]
  · rw [if_neg h, if_neg h]

theorem parseExpPart_map_pyLowerCh (cs : List Char) :
    parseExpPart (cs.map pyLowerCh) = parseExpPart cs := by
  match cs with
  | [] => rfl
  | c :: rest =>
    simp only [List.map_cons, parseExpPart, pyLowerCh_eq_expMark]
    by_cases he : (c == 'e' || c == 'E') = true
    · rw [if_pos he, if_pos he]
      match rest with
      | [] => rfl
      | d :: ds =>
        simp only [List.map_cons]
        by_cases hp : d = '+'
        · rw [if_pos ((pyLowerCh_eq_plus d).mpr hp), if_pos hp, parseExpDigits_map_pyLowerCh]
        · rw [if_neg (fun h => hp ((pyLowerCh_eq_plus d).mp h)), if_neg hp]
          by_cases hm : d = '-'
          · rw [if_pos ((pyLowerCh_eq_minus d).mpr hm), if_pos hm, parseExpDigits_map_pyLowerCh]
          · rw [if_neg (fun h => hm ((pyLowerCh_eq_minus d).mp h)), if_neg hm,
              ← List.map_cons pyLowerCh d ds, parseExpDigits_map_pyLowerCh]
    · rw [if_neg he, if_neg he]

theorem parseAfterPoint_map_pyLowerCh (ip r2 : List Char) :
    parseAfterPoint ip (r2.map pyLowerCh) = parseAfterPoint ip r2 := by
  simp only [parseAfterPoint, takeWhile_isDigit_map_pyLowerCh,
    dropWhile_isDigit_map_pyLowerCh, parseExpPart_map_pyLowerCh]

theorem parseNoPoint_map_pyLowerCh (ip r1 : List Char) :
    parseNoPoint ip (r1.map pyLowerCh) = parseNoPoint ip r1 := by
  unfold parseNoPoint
  rw [parseExpPart_map_pyLowerCh]

theorem parseMantExp_map_pyLowerCh (cs : List Char) :
    parseMantExp (cs.map pyLowerCh) = parseMantExp cs := by
  unfold parseMantExp
  rw [dropWhile_isDigit_map_pyLowerCh, takeWhile_isDigit_map_pyLowerCh]
  cases hr : cs.dropWhile isDigitCh with
  | nil => rfl
  | cons c r2 =>
    simp only [List.map_cons]
    by_cases hc : c = '.'
    · rw [if_pos ((pyLowerCh_eq_point c).mpr hc), if_pos hc, parseAfterPoint_map_pyLowerCh]
    · rw [if_neg (fun h => hc ((pyLowerCh_eq_point c).mp h)), if_neg hc,
        ← List.map_cons pyLowerCh c r2, parseNoPoint_map_pyLowerCh]

theorem parseSigned_map_pyLowerCh (cs : List Char) :
    parseSigned (cs.map pyLowerCh) = parseSigned cs := by
  match cs with
  | [] => rfl
  | c :: rest =>
    simp only [List.map_cons, parseSigned]
    by_cases hp : c = '+'
    · rw [if_pos ((pyLowerCh_eq_plus c).mpr hp), if_pos hp, parseMantExp_map_pyLowerCh]
    · rw [if_neg (fun h => hp ((pyLowerCh_eq_plus c).mp h)), if_neg hp]
      by_cases hm : c = '-'
      · rw [if_pos ((pyLowerCh_eq_minus c).mpr hm), if_pos hm, parseMantExp_map_pyLowerCh]
      · rw [if_neg (fun h => hm ((pyLowerCh_eq_minus c).mp h)), if_neg hm,
          ← List.map_cons pyLowerCh c rest, parseMantExp_map_pyLowerCh]

theorem parseFloatF_map_pyLowerCh (cs : List Char) :
    parseFloatF (cs.map pyLowerCh) = parseFloatF cs := by
  unfold parseFloatF
  rw [pyStrip_map_pyLowerCh, parseSigned_map_pyLowerCh]

theorem splitOnComma_ne_nil (cs : List Char) : splitOnComma cs ≠ [] := by
  cases cs with
  | nil => simp [splitOnComma]
  | cons c t =>
    simp only [splitOnComma]
    split
    · simp
    · split <;> simp

theorem splitOnComma_map_pyLowerCh (cs : List Char) :
    splitOnComma (cs.map pyLowerCh) = (splitOnComma cs).map (List.map pyLowerCh) := by
  induction cs with
  | nil => rfl
  | cons c t ih =>
    cases hs : splitOnComma t with
    | nil => exact absurd hs (splitOnComma_ne_nil t)
    | cons f rest =>
      simp only [List.map_cons, splitOnComma, ih, hs, pyLowerCh_eq_comma]
      by_cases hc : (c == ',') = true
      · rw [if_pos hc, if_pos hc]; rfl
      · rw [if_neg hc, if_neg hc]; rfl

theorem parseFields_map_pyLowerCh (fs : List (List Char)) :
    parseFields (fs.map (List.map pyLowerCh)) = parseFields fs := by
  induction fs with
  | nil => rfl
  | cons f t ih => simp only [List.map_cons, parseFields, parseFloatF_map_pyLowerCh, ih]

/-! ### Structural facts about the loaders -/

theorem parseFields_length (fs : List (List Char)) (vs : List ℚ)
    (h : parseFields fs = some vs) : vs.length = fs.length := by
  induction fs generalizing vs with
  | nil => simp only [parseFields, Option.some.injEq] at h; subst h; rfl
  | cons f t ih =>
    simp only [parseFields] at h
    cases hf : parseFloatF f with
    | none => rw [hf] at h; exact absurd h (by simp)
    | some v =>
      rw [hf] at h
      cases ht : parseFields t with
      | none => rw [ht] at h; exact absurd h (by simp)
      | some vt =>
        rw [ht] at h
        simp only [Option.some.injEq] at h
        subst h
        simp [ih vt ht]

theorem parseFields_isSome (fs : List (List Char))
    (h : ∀ f ∈ fs, (parseFloatF f).isSome) : (parseFields fs).isSome := by
  induction fs with
  | nil => simp [parseFields]
  | cons f t ih =>
    have hf := h f (by simp)
    have ht := ih (fun g hg => h g (by simp [hg]))
    cases hfv : parseFloatF f with
    | none => rw [hfv] at hf; exact absurd hf (by simp)
    | some v =>
      cases htv : parseFields t with
      | none => rw [htv] at ht; exact absurd ht (by simp)
      | some vt => simp [parseFields, hfv, htv]

theorem parseFields_none_of (fs : List (List Char)) (f : List Char)
    (hf : f ∈ fs) (h : parseFloatF f = none) : parseFields fs = none := by
  induction fs with
  | nil => cases hf
  | cons g t ih =>
    rcases List.mem_cons.mp hf with hg | ht
    · subst hg; simp [parseFields, h]
    · simp only [parseFields, ih ht]
      cases parseFloatF g <;> rfl

theorem parseAllLines_length (ls : List (List Char)) (rs : List (List ℚ))
    (h : parseAllLines ls = some rs) : rs.length = ls.length := by
  induction ls generalizing rs with
  | nil => simp only [parseAllLines, Option.some.injEq] at h; subst h; rfl
  | cons l t ih =>
    simp only [parseAllLines] at h
    cases hl : parseLine l with
    | none => rw [hl] at h; exact absurd h (by simp)
    | some r =>
      rw [hl] at h
      cases ht : parseAllLines t with
      | none => rw [ht] at h; exact absurd h (by simp)
      | some rt =>
        rw [ht] at h
        simp only [Option.some.injEq] at h
        subst h
        simp [ih rt ht]

theorem parseAllLines_get (ls : List (List Char)) (rs : List (List ℚ))
    (h : parseAllLines ls = some rs) :
    ∀ i (h1 : i < ls.length) (h2 : i < rs.length),
      parseLine (ls.get ⟨i, h1⟩) = some (rs.get ⟨i, h2⟩) := by
  induction ls generalizing rs with
  | nil => intro i h1; cases h1
  | cons l t ih =>
    simp only [parseAllLines] at h
    cases hl : parseLine l with
    | none => rw [hl] at h; exact absurd h (by simp)
    | some r =>
      rw [hl] at h
      cases ht : parseAllLines t with
      | none => rw [ht] at h; exact absurd h (by simp)
      | some rt =>
        rw [ht] at h
        simp only [Option.some.injEq] at h
        subst h
        intro i h1 h2
        cases i with
        | zero => simpa using hl
        | succ j => exact ih rt ht j (by simpa using h1) (by simpa using h2)

theorem parseAllLines_mem (ls : List (List Char)) (rs : List (List ℚ))
    (h : parseAllLines ls = some rs) :
    ∀ r ∈ rs, ∃ l, l ∈ ls ∧ parseLine l = some r := by
  induction ls generalizing rs with
  | nil => simp only [parseAllLines, Option.some.injEq] at h; subst h; simp
  | cons l t ih =>
    simp only [parseAllLines] at h
    cases hl : parseLine l with
    | none => rw [hl] at h; exact absurd h (by simp)
    | some r0 =>
      rw [hl] at h
      cases ht : parseAllLines t with
      | none => rw [ht] at h; exact absurd h (by simp)
      | some rt =>
        rw [ht] at h
        simp only [Option.some.injEq] at h
        subst h
        intro r hr
        rcases List.mem_cons.mp hr with h0 | hmem
        · exact ⟨l, by simp, by rw [hl, h0]⟩
        · obtain ⟨l2, hl2, he⟩ := ih rt ht r hmem
          exact ⟨l2, by simp [hl2], he⟩

theorem parseAllLines_isSome (ls : List (List Char))
    (h : ∀ l ∈ ls, (parseLine l).isSome) : (parseAllLines ls).isSome := by
  induction ls with
  | nil => simp [parseAllLines]
  | cons l t ih =>
    have hl := h l (by simp)
    have ht := ih (fun g hg => h g (by simp [hg]))
    cases hlv : parseLine l with
    | none => rw [hlv] at hl; exact absurd hl (by simp)
    | some r =>
      cases htv : parseAllLines t with
      | none => rw [htv] at ht; exact absurd ht (by simp)
      | some rt => simp [parseAllLines, hlv, htv]

theorem parseAllLines_none_of (ls : List (List Char)) (l : List Char)
    (hl : l ∈ ls) (h : parseLine l = none) : parseAllLines ls = none := by
  induction ls with
  | nil => cases hl
  | cons g t ih =>
    rcases List.mem_cons.mp hl with hg | ht
    · subst hg; simp [parseAllLines, h]
    · simp only [parseAllLines, ih ht]
      cases parseLine g <;> rfl

theorem loadLoop_eq (ls : List (List Char)) :
    ∀ acc, loadLoop ls acc = (parseAllLines ls).map (fun rs => acc ++ rs) := by
  induction ls with
  | nil => intro acc; simp [loadLoop, parseAllLines]
  | cons l t ih =>
    intro acc
    simp only [loadLoop, parseAllLines]
    cases hl : parseLine l with
    | none => rfl
    | some r =>
      cases ht : parseAllLines t with
      | none => simp [ih, ht]
      | some rt => simp [ih, ht]

theorem loadLockin_eq_parseAllLines (ls : List (List Char)) :
    loadLockin ls = parseAllLines ls := by
  rw [loadLockin, loadLoop_eq]
  cases parseAllLines ls <;> simp

/-! ### Directory-scan facts -/

theorem scanDirGo_eq (files : List String) :
    ∀ a b, scanDirGo files (a, b) =
      (a ++ files.filter (fun f => listPrefixB "lock-in".data f.data),
       b ++ files.filter (fun f => listPrefixB "power-supply".data f.data)) := by
  induction files with
  | nil => intro a b; simp [scanDirGo]
  | cons f fs ih =>
    intro a b
    by_cases h1 : listPrefixB "lock-in".data f.data = true <;>
      by_cases h2 : listPrefixB "power-supply".data f.data = true <;>
        simp [scanDirGo, h1, h2, ih, List.filter_cons]

theorem not_both_prefixed (f : String) :
    ¬(listPrefixB "lock-in".data f.data = true ∧
      listPrefixB "power-supply".data f.data = true) := by
  intro ⟨h1, h2⟩
  have e1 : "lock-in".data = ['l', 'o', 'c', 'k', '-', 'i', 'n'] := by decide
  have e2 : "power-supply".data =
      ['p', 'o', 'w', 'e', 'r', '-', 's', 'u', 'p', 'p', 'l', 'y'] := by decide
  rw [e1] at h1
  rw [e2] at h2
  cases hf : f.data with
  | nil => rw [hf] at h1; simp [listPrefixB] at h1
  | cons c t =>
    rw [hf] at h1 h2
    simp only [listPrefixB, Bool.and_eq_true, beq_iff_eq] at h1 h2
    exact absurd (h2.1.trans h1.1.symm) (by decide : 'p' ≠ 'l')

/-! ### Concrete evaluations used by witnesses and counterexamples -/

theorem parseLine_12 : parseLine ['1', ',', '2'] = some [1, 2] := by
  have h0 : lineFields ['1', ',', '2'] = [['1'], ['2']] := by decide
  have d1 : digitsVal ['1'] = 1 := by decide
  have d2 : digitsVal ['2'] = 2 := by decide
  simp +decide [parseLine, h0, parseFields, parseFloatF, pyStrip, parseSigned, parseMantExp,
    parseNoPoint, parseExpPart, d1, d2]

theorem parseLine_3 : parseLine ['3'] = some [3] := by
  have h0 : lineFields ['3'] = [['3']] := by decide
  have d3 : digitsVal ['3'] = 3 := by decide
  simp +decide [parseLine, h0, parseFields, parseFloatF, pyStrip, parseSigned, parseMantExp,
    parseNoPoint, parseExpPart, d3]

/-! ### The claims -/

/-- Claim C1: for an input of well-formed lines, each with the same number
of numeric comma-separated fields, the loader returns a table with one row
per line, every row of the common width, and row `i` equal to the parsed
fields of line `i` (stripped, lowercased, split on commas). -/
theorem loader_wellformed (lines : List (List Char)) (k : ℕ)
    (Hnum : ∀ l ∈ lines, ∀ f ∈ lineFields l, (parseFloatF f).isSome)
    (Hk : ∀ l ∈ lines, (lineFields l).length = k) :
    ∃ rows, loadLockin lines = some rows ∧ rows.length = lines.length ∧
      (∀ r ∈ rows, r.length = k) ∧
      (∀ i (h1 : i < lines.length) (h2 : i < rows.length),
        parseLine (lines.get ⟨i, h1⟩) = some (rows.get ⟨i, h2⟩)) := by
  have hsome : (parseAllLines lines).isSome := by
    refine parseAllLines_isSome lines (fun l hl => ?_)
    rw [parseLine]
    exact parseFields_isSome _ (Hnum l hl)
  obtain ⟨rows, heq⟩ := Option.isSome_iff_exists.mp hsome
  refine ⟨rows, by rw [loadLockin_eq_parseAllLines, heq], parseAllLines_length _ _ heq,
    ?_, parseAllLines_get _ _ heq⟩
  intro r hr
  obtain ⟨l, hl, he⟩ := parseAllLines_mem _ _ heq r hr
  rw [parseLine] at he
  rw [parseFields_length _ _ he]
  exact Hk l hl

/-- Witness for C1 at the two-line file "1,2" / "3,4". -/
theorem loader_wellformed_witness :
    ∃ rows, loadLockin ["1,2".data, "3,4".data] = some rows ∧
      rows.length = (["1,2".data, "3,4".data] : List (List Char)).length ∧
      (∀ r ∈ rows, r.length = 2) ∧
      (∀ i (h1 : i < (["1,2".data, "3,4".data] : List (List Char)).length)
        (h2 : i < rows.length),
        parseLine ((["1,2".data, "3,4".data] : List (List Char)).get ⟨i, h1⟩) =
          some (rows.get ⟨i, h2⟩)) :=
  loader_wellformed ["1,2".data, "3,4".data] 2 (by decide) (by decide)

/-- Claim C2: the threshold filter keeps, in their original relative order,
exactly the rows whose first column minus the reference epoch exceeds the
threshold: the output is a sublist of the input, every kept row satisfies
the strict inequality, and every input row satisfying it is kept (with its
multiplicity). -/
theorem thresholdFilter_exact (t : ℚ) (rows : List (List ℚ)) :
    (thresholdFilter t rows).Sublist rows ∧
    (∀ r ∈ thresholdFilter t rows, t < r.headD 0 - refEpoch) ∧
    (∀ r : List ℚ, t < r.headD 0 - refEpoch →
      (thresholdFilter t rows).count r = rows.count r) := by
  refine ⟨?_, ?_, ?_⟩
  · rw [thresholdFilter]
    exact List.filter_sublist rows
  · intro r hr
    rw [thresholdFilter] at hr
    simpa using List.of_mem_filter hr
  · intro r hr
    rw [thresholdFilter]
    exact List.count_filter (by simpa using hr)

/-- Witness for C2 at threshold 3400 and a two-row table. -/
theorem thresholdFilter_exact_witness :
    (thresholdFilter 3400 [[1426117401, 1], [1426117400, 2]]).Sublist
      [[1426117401, 1], [1426117400, 2]] ∧
    (∀ r ∈ thresholdFilter 3400 [[1426117401, 1], [1426117400, 2]],
      (3400 : ℚ) < r.headD 0 - refEpoch) ∧
    (∀ r : List ℚ, (3400 : ℚ) < r.headD 0 - refEpoch →
      (thresholdFilter 3400 [[1426117401, 1], [1426117400, 2]]).count r =
        ([[1426117401, 1], [1426117400, 2]] : List (List ℚ)).count r) :=
  thresholdFilter_exact 3400 [[1426117401, 1], [1426117400, 2]]

/-- Claim C3 counterexample: a ragged all-numeric input does not fail the
load; the loader returns every row, so a value is produced even though the
rows have different widths. -/
theorem loader_ragged_counterexample :
    loadLockin ["1,2".data, "3".data] = some [[1, 2], [3]] ∧
    ¬ (∀ r ∈ [[(1 : ℚ), 2], [3]], r.length = 2) := by
  constructor
  · rw [loadLockin_eq_parseAllLines]
    simp [parseAllLines, parseLine_12, parseLine_3]
  · intro h
    have := h [3] (by simp)
    simp at this

/-- Claim C3 as amended: an input containing an empty line or a
non-numeric field fails the whole load, producing no table; ragged
all-numeric rows are not detected. -/
theorem loader_fails_on_bad_field (lines : List (List Char))
    (H : ∃ l ∈ lines, ∃ f ∈ lineFields l, parseFloatF f = none) :
    loadLockin lines = none := by
  obtain ⟨l, hl, f, hf, hnone⟩ := H
  rw [loadLockin_eq_parseAllLines]
  refine parseAllLines_none_of lines l hl ?_
  rw [parseLine]
  exact parseFields_none_of _ f hf hnone

/-- Witness for the amended C3: a file whose second line is empty fails. -/
theorem loader_fails_on_bad_field_witness :
    loadLockin ["1,2".data, "".data] = none :=
  loader_fails_on_bad_field ["1,2".data, "".data] (by decide)

/-- Claim C4: filtering twice with the same threshold equals filtering
once. -/
theorem thresholdFilter_idempotent (t : ℚ) (rows : List (List ℚ)) :
    thresholdFilter t (thresholdFilter t rows) = thresholdFilter t rows := by
  simp only [thresholdFilter]
  refine List.filter_eq_self.mpr ?_
  intro a ha
  exact (List.mem_filter.mp ha).2

/-- Claim C5: the directory scan puts a name in the lock-in list exactly
when it starts with "lock-in" and in the power-supply list exactly when it
starts with "power-supply", keeps the listing order in each list, and no
name lands in both lists. -/
theorem scanDir_partition (files : List String) :
    (scanDir files).1 = files.filter (fun f => listPrefixB "lock-in".data f.data) ∧
    (scanDir files).2 = files.filter (fun f => listPrefixB "power-supply".data f.data) ∧
    (∀ f, f ∈ (scanDir files).1 ↔
      f ∈ files ∧ listPrefixB "lock-in".data f.data = true) ∧
    (∀ f, f ∈ (scanDir files).2 ↔
      f ∈ files ∧ listPrefixB "power-supply".data f.data = true) ∧
    (∀ f, ¬(f ∈ (scanDir files).1 ∧ f ∈ (scanDir files).2)) := by
  obtain ⟨e1, e2⟩ : (scanDir files).1 =
      files.filter (fun f => listPrefixB "lock-in".data f.data) ∧
      (scanDir files).2 =
      files.filter (fun f => listPrefixB "power-supply".data f.data) := by
    rw [scanDir]
    have := scanDirGo_eq files [] []
    simp at this
    exact ⟨by rw [this], by rw [this]⟩
  refine ⟨e1, e2, ?_, ?_, ?_⟩
  · intro f; rw [e1]; exact List.mem_filter
  · intro f; rw [e2]; exact List.mem_filter
  · intro f ⟨h1, h2⟩
    rw [e1] at h1; rw [e2] at h2
    exact not_both_prefixed f ⟨(List.mem_filter.mp h1).2, (List.mem_filter.mp h2).2⟩

/-- Witness for C5 at a concrete three-name listing. -/
theorem scanDir_partition_witness :
    (scanDir ["lock-in-1.log", "power-supply-2.log", "notes.txt"]).1 =
      (["lock-in-1.log", "power-supply-2.log", "notes.txt"] : List String).filter
        (fun f => listPrefixB "lock-in".data f.data) ∧
    (scanDir ["lock-in-1.log", "power-supply-2.log", "notes.txt"]).2 =
      (["lock-in-1.log", "power-supply-2.log", "notes.txt"] : List String).filter
        (fun f => listPrefixB "power-supply".data f.data) ∧
    (∀ f, f ∈ (scanDir ["lock-in-1.log", "power-supply-2.log", "notes.txt"]).1 ↔
      f ∈ (["lock-in-1.log", "power-supply-2.log", "notes.txt"] : List String) ∧
        listPrefixB "lock-in".data f.data = true) ∧
    (∀ f, f ∈ (scanDir ["lock-in-1.log", "power-supply-2.log", "notes.txt"]).2 ↔
      f ∈ (["lock-in-1.log", "power-supply-2.log", "notes.txt"] : List String) ∧
        listPrefixB "power-supply".data f.data = true) ∧
    (∀ f, ¬(f ∈ (scanDir ["lock-in-1.log", "power-supply-2.log", "notes.txt"]).1 ∧
      f ∈ (scanDir ["lock-in-1.log", "power-supply-2.log", "notes.txt"]).2)) :=
  scanDir_partition ["lock-in-1.log", "power-supply-2.log", "notes.txt"]

/-- Claim C6: the filtering cell allocates a new table and rebinds the
variable; every previously allocated table, in particular the input table,
is unchanged on the heap, and the new binding holds the filtered rows. -/
theorem filterStep_frame (t : ℚ) (st : NotebookState)
    (h : st.runAddr < st.heap.length) :
    (∀ a, a < st.heap.length → (filterStep t st).heap[a]? = st.heap[a]?) ∧
    (filterStep t st).heap[st.runAddr]? = st.heap[st.runAddr]? ∧
    (filterStep t st).runAddr ≠ st.runAddr ∧
    (filterStep t st).heap[(filterStep t st).runAddr]? =
      some (thresholdFilter t (st.heap.getD st.runAddr [])) := by
  refine ⟨?_, ?_, ?_, ?_⟩
  · intro a ha
    exact List.getElem?_append_left ha
  · exact List.getElem?_append_left h
  · exact fun he => absurd (he ▸ h) (lt_irrefl _)
  · simp [filterStep]

/-- Witness for C6 at a one-array heap. -/
theorem filterStep_frame_witness :
    (∀ a, a < (NotebookState.mk [[[1426117401, 1]]] 0).heap.length →
      (filterStep 3400 (NotebookState.mk [[[1426117401, 1]]] 0)).heap[a]? =
        (NotebookState.mk [[[1426117401, 1]]] 0).heap[a]?) ∧
    (filterStep 3400 (NotebookState.mk [[[1426117401, 1]]] 0)).heap[
      (NotebookState.mk [[[1426117401, 1]]] 0).runAddr]? =
      (NotebookState.mk [[[1426117401, 1]]] 0).heap[
        (NotebookState.mk [[[1426117401, 1]]] 0).runAddr]? ∧
    (filterStep 3400 (NotebookState.mk [[[1426117401, 1]]] 0)).runAddr ≠
      (NotebookState.mk [[[1426117401, 1]]] 0).runAddr ∧
    (filterStep 3400 (NotebookState.mk [[[1426117401, 1]]] 0)).heap[
      (filterStep 3400 (NotebookState.mk [[[1426117401, 1]]] 0)).runAddr]? =
      some (thresholdFilter 3400
        ((NotebookState.mk [[[1426117401, 1]]] 0).heap.getD
          (NotebookState.mk [[[1426117401, 1]]] 0).runAddr [])) :=
  filterStep_frame 3400 (NotebookState.mk [[[1426117401, 1]]] 0) (by decide)

/-- Claim C7: the lock-in loading code and the power-supply loading code
compute the same function on file contents. -/
theorem loadLockin_eq_loadPowerSupply (lines : List (List Char)) :
    loadLockin lines = loadPowerSupply lines := rfl

/-- Claim C8: a row whose first column minus the reference epoch equals the
threshold exactly is excluded: the comparison is strict. -/
theorem thresholdFilter_strict_boundary (t : ℚ) (rows : List (List ℚ)) (r : List ℚ)
    (_hr : r ∈ rows) (h : r.headD 0 - refEpoch = t) :
    r ∉ thresholdFilter t rows := by
  intro hmem
  have hp := List.of_mem_filter hmem
  rw [decide_eq_true_eq, h] at hp
  exact lt_irrefl t hp

/-- Witness for C8: the row at exactly threshold 3400 above the epoch is
dropped. -/
theorem thresholdFilter_strict_boundary_witness :
    ([(1426117400 : ℚ)] : List ℚ) ∉ thresholdFilter 3400 [[(1426117400 : ℚ)]] :=
  thresholdFilter_strict_boundary 3400 [[(1426117400 : ℚ)]] [(1426117400 : ℚ)]
    (by simp) (by norm_num [refEpoch])

/-- Claim C9: when every matched file loads, the multi-file load returns
the concatenation of the per-file tables, file rows contiguous, files in
list order. -/
theorem loadFilesCat_concat (files : List (List (List Char)))
    (tables : List (List (List ℚ)))
    (H : List.Forall₂ (fun file table => loadLockin file = some table) files tables) :
    loadFilesCat files = some tables.flatten := by
  rw [loadFilesCat]
  have : ∀ a, files.foldl loadStep (some a) = some (a ++ tables.flatten) := by
    induction H with
    | nil => intro a; simp
    | cons hft hrest ih =>
      intro a
      rename_i f t fs ts
      simp only [List.foldl_cons, loadStep, loadLoop_eq]
      rw [← loadLockin_eq_parseAllLines, hft]
      rw [show Option.map (fun rs => a ++ rs) (some t) = some (a ++ t) from rfl]
      rw [ih (a ++ t)]
      simp [List.flatten_cons, List.append_assoc]
  simpa using this []

/-- Witness for C9: two files, one line and zero lines. -/
theorem loadFilesCat_concat_witness :
    loadFilesCat [["1,2".data], ([] : List (List Char))] =
      some ([[[1, 2]], ([] : List (List ℚ))] : List (List (List ℚ))).flatten :=
  loadFilesCat_concat [["1,2".data], []] [[[1, 2]], []]
    (List.Forall₂.cons
      (by rw [loadLockin_eq_parseAllLines]; simp [parseAllLines, parseLine_12])
      (List.Forall₂.cons rfl List.Forall₂.nil))

/-- Claim C10: on every line, parsing with the lowercasing step equals
parsing without it: lowercasing fixes digits, signs, points, commas and
whitespace, and float parsing accepts both exponent markers. -/
theorem parseLine_lower_irrelevant (line : List Char) :
    parseLine line = parseLineNoLower line := by
  rw [parseLine, lineFields, splitOnComma_map_pyLowerCh, parseFields_map_pyLowerCh,
    parseLineNoLower]

end Cryo
